import Mathlib

/-!
A shallow embedding of `Namcap/rules/sodepends.py` (the shared-library
dependency rule of namcap) together with proofs about its behaviour.

The Python module scans ELF binaries of a package for `DT_NEEDED` /
`DT_SONAME` dynamic tags (`scanlibs`), resolves required libraries against
the per-architecture ldconfig cache, matches the requirements against the
file lists of installed packages (`finddepends`) and finally reconciles the
result with the package's declared metadata (`SharedLibsRule.analyze`).

External effects (the ELF parser, `os.path.abspath`, `os.path.realpath`,
the installed-package database) are passed in as parameters; everything the
module itself computes is translated directly from the source.
-/

set_option maxRecDepth 100000

namespace Sodepends

/-! ### Python string primitives used by the module -/

/-- Substring containment test, as in Python `pat in s` / `re.search` for a
literal pattern: some position of `l` starts with `pat`. -/
def containsSub (pat l : List Char) : Bool :=
  (List.range (l.length + 1)).any (fun i => pat.isPrefixOf (l.drop i))

/-- Model of `os.path.dirname`: everything before the final `/` (empty when no `/`
occurs), mirroring the posix implementation used on the in-package paths. -/
def dirnameOf (s : String) : String :=
  match (List.range s.data.length).filter (fun i => s.data.get? i == some '/') |>.getLast? with
  | some i => ⟨s.data.take i⟩
  | none => ""

/-! ### The two `re.sub` calls deriving soname and soversion

`soname = re.sub(r"\.so.*", ".so", name)`: the first occurrence of the
literal `.so` plus everything up to the next newline (Python `.` does not
cross newlines) is replaced by `.so`; scanning then continues after the
match.

`soversion = re.sub(r"^.*\.so\.", "", name)`: the pattern is anchored, so at
most one replacement happens; greedy `.*` makes the match run to the end of
the *last* `.so.` occurrence that is not preceded by a newline. -/

/-- Helper for `\.so.*`: one replacement consumes `.so` and the rest of the
line; the characters from the first newline on are scanned again. -/
def subSoAux : List Char → List Char
  | [] => []
  | c :: cs =>
    if ('.' :: 's' :: 'o' :: []).isPrefixOf (c :: cs) then
      '.' :: 's' :: 'o' :: subSoAux ((cs.drop 2).dropWhile (fun d => d ≠ '\n'))
    else
      c :: subSoAux cs
termination_by l => l.length
decreasing_by
  · simp only [List.length_cons]
    have h1 : ((cs.drop 2).dropWhile (fun d => d ≠ '\n')).length ≤ (cs.drop 2).length :=
      (List.dropWhile_sublist _).length_le
    have h2 : (cs.drop 2).length ≤ cs.length := by
      simp [List.length_drop]
    omega
  · simp

/-- Model of `re.sub(r"\.so.*", ".so", s)` (line 53 / line 60 of the source). -/
def sonameOf (s : String) : String := ⟨subSoAux s.data⟩

/-- Positions where the anchored pattern `^.*\.so\.` can end: `j + 4` for
every `j` such that `.so.` occurs at `j` and no newline precedes it
(the `.*` part cannot cross a newline). -/
def soDotMatchEnds (l : List Char) : List Nat :=
  (List.range (l.length + 1)).filter
    (fun j => ('.' :: 's' :: 'o' :: '.' :: []).isPrefixOf (l.drop j)
      && (l.take j).all (fun d => d ≠ '\n'))
  |>.map (fun j => j + 4)

/-- Model of `re.sub(r"^.*\.so\.", "", s)` (line 54 / line 61 of the source): greedy
matching removes everything through the last reachable `.so.`; when the
pattern does not match, the string is returned unchanged. -/
def soversionOf (s : String) : String :=
  match (soDotMatchEnds s.data).getLast? with
  | some e => ⟨s.data.drop e⟩
  | none => s

/-- The composite key `soname + "=" + soversion + "-" + str(bitsize)` used
for both `libdepends` and `libprovides` entries. -/
def libKey (libname : String) (bitsize : Nat) : String :=
  sonameOf libname ++ "=" ++ soversionOf libname ++ "-" ++ toString bitsize

/-! ### The `so_end` regular expression of `finddepends`

`so_end = re.compile(r"(\.\d+)*")`, used as `so_end.match(rest)` whose
result is tested for truthiness.  The star admits zero groups, hence the
engine always returns a (possibly empty-width) match object. -/

/-- Greedy consumption of `(\.\d+)*` groups: each group is a dot followed by
one or more digits; the unconsumed remainder is returned. -/
def soEndStar : List Char → List Char
  | '.' :: c :: rest =>
    if c.isDigit then soEndStar (rest.dropWhile Char.isDigit) else '.' :: c :: rest
  | l => l
termination_by l => l.length
decreasing_by
  simp only [List.length_cons]
  have : (rest.dropWhile Char.isDigit).length ≤ rest.length :=
    (List.dropWhile_sublist _).length_le
  omega

/-- The (zero-based) end position of `so_end.match(s)`; a match object is
always produced because the starred group may repeat zero times. -/
def soEndMatchEnd (s : String) : Option Nat :=
  some (s.data.length - (soEndStar s.data).length)

/-- Truthiness of `so_end.match(s)` as used on line 111 of the source. -/
def soEndTruthy (s : String) : Bool :=
  (soEndMatchEnd s).isSome

/-- Model of `is_so = re.compile(r"\.so")`, used as `is_so.search(j)` on line 104. -/
def isSoSearch (j : String) : Bool :=
  containsSub ('.' :: 's' :: 'o' :: []) j.data

/-- Python `j.startswith(pre)`: character-wise prefix test. -/
def pyStartsWith (j pre : String) : Bool :=
  pre.data.isPrefixOf j.data

/-- Python `i.endswith(suf)`: character-wise suffix test. -/
def pyEndsWith (i suf : String) : Bool :=
  suf.data.isSuffixOf i.data

/-- The per-file match condition of line 111:
`j == actualpath[k] or (j.startswith(actualpath[k]) and so_end.match(j[len(actualpath[k]):]))`. -/
def soMatchCond (actualk j : String) : Bool :=
  j == actualk || (pyStartsWith j actualk && soEndTruthy ⟨j.data.drop actualk.data.length⟩)

/-- Splitting a character list at every occurrence of a separator
character (the segments between consecutive dots, for the intended
reading of the suffix rule). -/
def splitSep (sep : Char) : List Char → List Char → List (List Char)
  | [], acc => [acc.reverse]
  | c :: rest, acc =>
    if c = sep then acc.reverse :: splitSep sep rest []
    else splitSep sep rest (c :: acc)

/-- The matching rule as the specification words it: exact equality, or a
prefix match whose remaining suffix consists solely of dot-separated purely
numeric segments running to the end of the string. -/
def specMatchCond (required j : String) : Bool :=
  j == required ||
    (pyStartsWith j required &&
      (match j.data.drop required.data.length with
       | [] => true
       | '.' :: rest =>
         (splitSep '.' rest []).all (fun seg => ¬ seg.isEmpty && seg.all Char.isDigit)
       | _ => false))

/-! ### Association-list models of the Python dicts and sets

The module stores its results in `dict`s and `defaultdict(set)`s.  We model
them as insertion-ordered association lists: assignment to an existing key
replaces its value in place, assignment to a fresh key appends. -/

/-- Python `d[k] = v` on a `dict` modelled as an association list. -/
def updAssoc (k v : String) (l : List (String × String)) : List (String × String) :=
  if l.any (fun p => p.1 == k) then
    l.map (fun p => if p.1 == k then (k, v) else p)
  else
    l ++ [(k, v)]

/-- Lookup in an association list (`d[k]` on a key that may be absent). -/
def lookupAssoc (l : List (String × String)) (k : String) : Option String :=
  (l.find? (fun p => p.1 == k)).map (fun p => p.2)

/-- Python `set.add` modelled on a duplicate-free list. -/
def addElem (x : String) (l : List String) : List String :=
  if l.contains x then l else l ++ [x]

/-- Python `defaultdict(set)`: `d[k].add(v)` — the missing key defaults to the
empty set. -/
def addToSetAssoc (k v : String) (l : List (String × List String)) :
    List (String × List String) :=
  if l.any (fun p => p.1 == k) then
    l.map (fun p => if p.1 == k then (p.1, addElem v p.2) else p)
  else
    l ++ [(k, [v])]

/-- Reading a `defaultdict(set)` entry (empty set when absent). -/
def lookupSet (l : List (String × List String)) (k : String) : List String :=
  ((l.find? (fun p => p.1 == k)).map (fun p => p.2)).getD []

/-! ### `scanlibs` (lines 30–71): per-tag processing -/

/-- The two architecture labels (`Architecture: TypeAlias = Literal["i686", "x86-64"]`). -/
inductive Architecture where
  | i686
  | x8664
deriving DecidableEq, Repr

/-- The `match bitsize` statement of lines 46–50: only the classes 32 and 64
are associated with an architecture label; any other word size leaves the
label unassigned (modelled as `none`, which a later use turns into a fatal
error for the file). -/
def architectureOf (bitsize : Nat) : Option Architecture :=
  if bitsize = 32 then some Architecture.i686
  else if bitsize = 64 then some Architecture.x8664
  else none

/-- One dynamic-section tag, as far as `scanlibs` inspects it. -/
inductive DynTag where
  | sonameTag (s : String)
  | needed (s : String)
  | otherTag
deriving DecidableEq, Repr

/-- The accumulating maps threaded through `scanlibs`. -/
structure ScanState where
  liblist : List (String × List String)
  libdepends : List (String × String)
  libprovides : List (String × List String)
deriving DecidableEq, Repr

/-- The body of the tag loop of `scanlibs` (lines 44–71).  `abspath` stands
for `os.path.abspath`, `cache` for the global `libcache`, `custom` for the
`custom_libs` override map.  The result is `none` when the Python code would
raise: a `DT_NEEDED` tag that reaches the cache lookup with an unassigned
`architecture` variable fails with an uncaught `NameError` (the
`except KeyError` on line 67 does not catch it). -/
def processTag (bitsize : Nat) (abspath : String → String)
    (cache : Architecture → String → Option String)
    (custom : String → Option String)
    (filename : String) (tag : DynTag) (st : ScanState) : Option ScanState :=
  match tag with
  | DynTag.sonameTag s =>
    if dirnameOf filename == "usr/lib" || dirnameOf filename == "usr/lib32" then
      some { st with libprovides := addToSetAssoc (libKey s bitsize) filename st.libprovides }
    else
      some st
  | DynTag.needed libname =>
    match custom libname with
    | some _ =>
      -- the override branch computes `custom_libs[libname][1:]` and then
      -- `continue`s: nothing is recorded for this tag
      some st
    | none =>
      match architectureOf bitsize with
      | none => none
      | some arch =>
        let libpath :=
          match cache arch libname with
          | some v => ((abspath v).drop 1 : String)
          | none => libname
        some { st with
          libdepends := updAssoc (libKey libname bitsize) libpath st.libdepends,
          liblist := addToSetAssoc libpath filename st.liblist }
  | DynTag.otherTag => some st

/-- The full tag loop over one dynamic section. -/
def scanTags (bitsize : Nat) (abspath : String → String)
    (cache : Architecture → String → Option String)
    (custom : String → Option String)
    (filename : String) (tags : List DynTag) (st : ScanState) : Option ScanState :=
  tags.foldl
    (fun acc tag => acc.bind (processTag bitsize abspath cache custom filename tag))
    (some st)

/-! ### `finddepends` (lines 74–121) -/

/-- An installed package as `finddepends` consumes it: name, file records
`(path, size, mode)` and the declared `provides` set. -/
structure Pkg where
  name : String
  files : List (String × Nat × Nat)
  provides : List String
deriving DecidableEq, Repr

/-- The mutable state of the triple loop of `finddepends`. -/
structure FDState where
  dependlist : List (String × List String)
  libdependlist : List (String × String)
  missing_provides : List (String × String)
  foundlibs : List String
deriving DecidableEq, Repr

/-- The result quadruple of `finddepends`. -/
structure FDResult where
  dependlist : List (String × List String)
  libdependlist : List (String × String)
  orphans : List String
  missing_provides : List (String × String)
deriving DecidableEq, Repr

/-- Model of `actualpath[k] = os.path.realpath("/" + libdepends[k])[1:]` (line 93);
`realpath` stands for `os.path.realpath`. -/
def actualpathOf (realpath : String → String) (libdepends : List (String × String))
    (k : String) : String :=
  ((realpath ("/" ++ ((lookupAssoc libdepends k).getD ""))).drop 1 : String)

/-- The body of the `for k in knownlibs` loop (lines 107–118) for one
installed file `j` of package `pkg`. -/
def fdStepKey (realpath : String → String) (libdepends : List (String × String))
    (pkg : Pkg) (j : String) (st : FDState) (k : String) : FDState :=
  if soMatchCond (actualpathOf realpath libdepends k) j then
    { dependlist := addToSetAssoc pkg.name ((lookupAssoc libdepends k).getD "") st.dependlist,
      foundlibs := addElem k st.foundlibs,
      libdependlist :=
        if pkg.provides.contains k then updAssoc k pkg.name st.libdependlist
        else st.libdependlist,
      missing_provides :=
        if pkg.provides.contains k then st.missing_provides
        else updAssoc k pkg.name st.missing_provides }
  else
    st

/-- The body of the `for j, fsize, fmode in pkg.files` loop (lines 103–118):
files whose path does not contain `.so` are skipped. -/
def fdStepFile (realpath : String → String) (libdepends : List (String × String))
    (knownlibs : List String) (pkg : Pkg) (st : FDState)
    (f : String × Nat × Nat) : FDState :=
  if isSoSearch f.1 then
    knownlibs.foldl (fdStepKey realpath libdepends pkg f.1) st
  else
    st

/-- One installed package's files, in order. -/
def fdStepPkg (realpath : String → String) (libdepends : List (String × String))
    (knownlibs : List String) (st : FDState) (pkg : Pkg) : FDState :=
  pkg.files.foldl (fdStepFile realpath libdepends knownlibs pkg) st

/-- Model of `finddepends(libdepends)` (lines 74–121).  `realpath` stands for
`os.path.realpath`; `pkgs` for `Namcap.package.get_installed_packages()`.
`knownlibs = set(libdepends)` is the key set of the scanned map; orphans are
the known libraries never added to `foundlibs`. -/
def finddepends (realpath : String → String) (pkgs : List Pkg)
    (libdepends : List (String × String)) : FDResult :=
  let knownlibs := (libdepends.map Prod.fst).dedup
  let final := pkgs.foldl (fdStepPkg realpath libdepends knownlibs)
    ⟨[], [], [], []⟩
  { dependlist := final.dependlist,
    libdependlist := final.libdependlist,
    orphans := knownlibs.filter (fun k => ¬ final.foundlibs.contains k),
    missing_provides := final.missing_provides }

/-! ### Fragments of `SharedLibsRule.analyze` (lines 143–261) -/

/-- Lines 174–176: `dict(filter(lambda elem: elem[1] != pkginfo["name"], m.items()))`,
dropping the entries owned by the analyzed package itself. -/
def filterInternal (selfname : String) (m : List (String × String)) :
    List (String × String) :=
  m.filter (fun p => p.2 ≠ selfname)

/-- Lines 178–184: one `library-no-package-associated` warning per orphan,
carrying the resolved path `libdepends[i]` and the requesting files
`list(liblist[libdepends[i]])`. -/
def noPkgWarnings (orphans : List String) (libdepends : List (String × String))
    (liblist : List (String × List String)) : List (String × String × List String) :=
  orphans.map (fun i =>
    ("library-no-package-associated", (lookupAssoc libdepends i).getD "",
      lookupSet liblist ((lookupAssoc libdepends i).getD "")))

/-- Lines 186–192: one `libdepends-missing-provides` info per entry of the
(already filtered) `missing_provides` map. -/
def missingProvidesInfos (missing_provides : List (String × String)) :
    List (String × String × String) :=
  missing_provides.map (fun p => ("libdepends-missing-provides", p.1, p.2))

/-- Lines 203–226: the per-soname classification over the (already
filtered) `libdependlist`, keyed by membership in the declared `depends` and
`optdepends` sets. -/
def sonameDepInfos (libdependlist : List (String × String))
    (depends optdepends : List String) : List (String × String × String) :=
  libdependlist.map (fun p =>
    if depends.contains p.1 then ("libdepends-detected-satisfied", p.1, p.2)
    else if optdepends.contains p.1 then ("libdepends-detected-but-optional", p.1, p.2)
    else ("libdepends-detected-not-included", p.1, p.2))

/-- The body of the `for i in pkginfo["depends"]` loop of lines 228–232:
appends a `libdepends-not-needed` warning when `i` contains `.so` but is
not a satisfied soname, and a `libdepends-without-version` error when `i`
ends exactly in `.so`. -/
def dependsStep (libdependlist : List (String × String))
    (acc : List (String × String) × List (String × String)) (i : String) :
    List (String × String) × List (String × String) :=
  let ws :=
    if containsSub ('.' :: 's' :: 'o' :: []) i.data
        && ¬ libdependlist.any (fun p => p.1 == i) then
      acc.1 ++ [("libdepends-not-needed", i)]
    else acc.1
  let es :=
    if pyEndsWith i ".so" then acc.2 ++ [("libdepends-without-version", i)]
    else acc.2
  (ws, es)

/-- Lines 228–232: the loop over the declared `depends`.  Returns the
warnings and the errors it appends, in order. -/
def dependsLoop (depends : List String) (libdependlist : List (String × String)) :
    List (String × String) × List (String × String) :=
  depends.foldl (dependsStep libdependlist) ([], [])

/-- The body of the `for i in pkginfo["provides"]` loop of lines 248–252,
mirroring `dependsStep` with the `libprovides` map and the
`libprovides-missing` / `libprovides-without-version` diagnostics. -/
def providesStep (libprovides : List (String × List String))
    (acc : List (String × String) × List (String × String)) (i : String) :
    List (String × String) × List (String × String) :=
  let ws :=
    if containsSub ('.' :: 's' :: 'o' :: []) i.data
        && ¬ libprovides.any (fun p => p.1 == i) then
      acc.1 ++ [("libprovides-missing", i)]
    else acc.1
  let es :=
    if pyEndsWith i ".so" then acc.2 ++ [("libprovides-without-version", i)]
    else acc.2
  (ws, es)

/-- Lines 248–252: the loop over the declared `provides`. -/
def providesLoop (provides : List String) (libprovides : List (String × List String)) :
    List (String × String) × List (String × String) :=
  provides.foldl (providesStep libprovides) ([], [])

/-! ### Association-list lemmas shared by the proofs below -/

theorem find?_none_of_any_false {l : List (String × String)} {k : String}
    (h : ¬ l.any (fun p => p.1 == k) = true) :
    l.find? (fun p => p.1 == k) = none := by
  rw [List.find?_eq_none]
  intro x hx hxk
  exact h (List.any_eq_true.mpr ⟨x, hx, hxk⟩)

theorem find?_map_updFun {k : String} (v : String) (l : List (String × String))
    (h : l.any (fun p => p.1 == k) = true) :
    (l.map (fun p => if p.1 == k then (k, v) else p)).find? (fun p => p.1 == k) = some (k, v) := by
  induction l with
  | nil => simp at h
  | cons p t ih =>
    by_cases hp : p.1 = k
    · rw [List.map_cons, if_pos (by simp [hp]), List.find?_cons_of_pos _ (by simp)]
    · have ht : t.any (fun q => q.1 == k) = true := by
        simpa [List.any_cons, hp] using h
      rw [List.map_cons, if_neg (by simp [hp]), List.find?_cons_of_neg _ (by simp [hp])]
      exact ih ht

theorem lookupAssoc_updAssoc_self (k v : String) (l : List (String × String)) :
    lookupAssoc (updAssoc k v l) k = some v := by
  unfold updAssoc lookupAssoc
  by_cases hany : l.any (fun p => p.1 == k) = true
  · rw [if_pos hany, find?_map_updFun v l hany]
    rfl
  · rw [if_neg hany, List.find?_append, find?_none_of_any_false hany, Option.none_or,
      List.find?_cons_of_pos _ (by simp)]
    rfl

theorem find?_map_updFun_other {k k' : String} (h : k ≠ k') (v : String)
    (l : List (String × String)) :
    (l.map (fun p => if p.1 == k' then (k', v) else p)).find? (fun p => p.1 == k)
      = l.find? (fun p => p.1 == k) := by
  induction l with
  | nil => rfl
  | cons p t ih =>
    by_cases hp : p.1 = k'
    · rw [List.map_cons, if_pos (by simp [hp]),
        List.find?_cons_of_neg _ (by simp [Ne.symm h]),
        List.find?_cons_of_neg _ (by simp [hp, Ne.symm h])]
      exact ih
    · rw [List.map_cons, if_neg (by simp [hp])]
      by_cases hpk : p.1 = k
      · rw [List.find?_cons_of_pos _ (by simp [hpk]), List.find?_cons_of_pos _ (by simp [hpk])]
      · rw [List.find?_cons_of_neg _ (by simp [hpk]), List.find?_cons_of_neg _ (by simp [hpk])]
        exact ih

theorem lookupAssoc_updAssoc_other {k k' : String} (h : k ≠ k') (v : String)
    (l : List (String × String)) :
    lookupAssoc (updAssoc k' v l) k = lookupAssoc l k := by
  unfold updAssoc lookupAssoc
  by_cases hany : l.any (fun p => p.1 == k') = true
  · rw [if_pos hany, find?_map_updFun_other h v l]
  · rw [if_neg hany, List.find?_append,
      List.find?_cons_of_neg _ (by simp [Ne.symm h]), List.find?_nil]
    cases l.find? (fun p => p.1 == k) <;> rfl

theorem mem_addElem (x y : String) (l : List String) :
    x ∈ addElem y l ↔ x = y ∨ x ∈ l := by
  unfold addElem
  split
  case isTrue h =>
    constructor
    · intro hx
      exact Or.inr hx
    · rintro (rfl | hx)
      · exact List.elem_iff.mp h
      · exact hx
  case isFalse _ =>
    simp [or_comm]

theorem find?_none_of_any_false_set {l : List (String × List String)} {k : String}
    (h : ¬ l.any (fun p => p.1 == k) = true) :
    l.find? (fun p => p.1 == k) = none := by
  rw [List.find?_eq_none]
  intro x hx hxk
  exact h (List.any_eq_true.mpr ⟨x, hx, hxk⟩)

theorem find?_map_addFun {k : String} (v : String) (l : List (String × List String))
    (h : l.any (fun p => p.1 == k) = true) :
    ∃ s, (l.map (fun p => if p.1 == k then (p.1, addElem v p.2) else p)).find?
        (fun p => p.1 == k) = some (k, addElem v s) := by
  induction l with
  | nil => simp at h
  | cons p t ih =>
    by_cases hp : p.1 = k
    · refine ⟨p.2, ?_⟩
      rw [List.map_cons, if_pos (by simp [hp]), List.find?_cons_of_pos _ (by simp [hp]), hp]
    · have ht : t.any (fun q => q.1 == k) = true := by
        simpa [List.any_cons, hp] using h
      obtain ⟨s, hs⟩ := ih ht
      refine ⟨s, ?_⟩
      rw [List.map_cons, if_neg (by simp [hp]), List.find?_cons_of_neg _ (by simp [hp])]
      exact hs

theorem lookupSet_addToSetAssoc_self (k v : String) (l : List (String × List String)) :
    v ∈ lookupSet (addToSetAssoc k v l) k := by
  unfold addToSetAssoc lookupSet
  by_cases hany : l.any (fun p => p.1 == k) = true
  · obtain ⟨s, hs⟩ := find?_map_addFun v l hany
    rw [if_pos hany, hs]
    exact (mem_addElem v v s).mpr (Or.inl rfl)
  · rw [if_neg hany, List.find?_append, find?_none_of_any_false_set hany, Option.none_or,
      List.find?_cons_of_pos _ (by simp)]
    exact List.mem_singleton_self v

/-! ### Concrete inputs used by the witnesses and counterexamples -/

/-- An empty library cache. -/
def emptyCache : Architecture → String → Option String := fun _ _ => none

/-- An empty override map. -/
def emptyCustom : String → Option String := fun _ => none

/-- An override map holding a search-path resolution for `libx.so.1`. -/
def overrideCustom : String → Option String := fun n =>
  if n == "libx.so.1" then some "/usr/lib/custom/libx.so.1" else none

/-- The empty scanner state. -/
def emptyScan : ScanState := ⟨[], [], []⟩

/-- A cache with an `i686` entry for `libz.so.1` and a spurious 64-bit map. -/
def cacheA : Architecture → String → Option String := fun a n =>
  match a with
  | Architecture.i686 => if n == "libz.so.1" then some "/usr/lib32/libz.so.1" else none
  | Architecture.x8664 => some "/usr/lib/odd"

/-- A cache agreeing with `cacheA` on `i686` but empty on `x86-64`. -/
def cacheB : Architecture → String → Option String := fun a n =>
  match a with
  | Architecture.i686 => if n == "libz.so.1" then some "/usr/lib32/libz.so.1" else none
  | Architecture.x8664 => none

/-! ### C1: the override branch -/

/-- C1 (counterexample): with `libx.so.1` present in the override map, the
tag is processed without recording anything — the derived key
`libx.so=1-64` is not entered into `libdepends` and the requester index
stays empty, contrary to the claim. -/
theorem C1_counterexample :
    processTag 64 id emptyCache overrideCustom "usr/bin/app"
        (DynTag.needed "libx.so.1") emptyScan = some emptyScan
    ∧ lookupAssoc emptyScan.libdepends (libKey "libx.so.1" 64) = none
    ∧ lookupSet emptyScan.liblist "usr/lib/custom/libx.so.1" = [] := by
  exact ⟨rfl, rfl, rfl⟩

/-- C1 (amended): for every needed-library tag whose raw linkage name
appears in the override map, `scanlibs` skips the tag entirely (the
computed override path is discarded by the `continue` on line 64): the
state is returned unchanged, so neither `libdepends` nor the requester
index records the requirement. -/
theorem C1_override_skips (bitsize : Nat) (abspath : String → String)
    (cache : Architecture → String → Option String) (custom : String → Option String)
    (filename libname p : String) (st : ScanState)
    (h : custom libname = some p) :
    processTag bitsize abspath cache custom filename (DynTag.needed libname) st = some st := by
  simp [processTag, h]

/-- C1 (witness): the amended claim applied at a concrete input. -/
theorem C1_override_skips_witness :
    processTag 64 id emptyCache overrideCustom "usr/bin/app"
      (DynTag.needed "libx.so.1") emptyScan = some emptyScan :=
  C1_override_skips 64 id emptyCache overrideCustom "usr/bin/app" "libx.so.1"
    "/usr/lib/custom/libx.so.1" emptyScan rfl

/-! ### C2: the unanchored suffix regular expression -/

/-- C2: the `so_end` pattern `(\.\d+)*` admits the empty repetition, so its
match object is always truthy; the code's matching condition therefore
accepts `usr/lib/libgpm.so.1abc` for required path `usr/lib/libgpm.so.1`,
while the anchored rule stated by the specification rejects it (both accept
the ldconfig-symlink case `usr/lib/libgpm.so.1.19.0`).  Consequently a
package shipping only the `1abc` file is counted as satisfying the
requirement by `finddepends`. -/
theorem C2_unanchored_suffix_bug :
    (∀ s : String, soEndTruthy s = true)
    ∧ soMatchCond "usr/lib/libgpm.so.1" "usr/lib/libgpm.so.1.19.0" = true
    ∧ specMatchCond "usr/lib/libgpm.so.1" "usr/lib/libgpm.so.1.19.0" = true
    ∧ soMatchCond "usr/lib/libgpm.so.1" "usr/lib/libgpm.so.1abc" = true
    ∧ specMatchCond "usr/lib/libgpm.so.1" "usr/lib/libgpm.so.1abc" = false
    ∧ (finddepends id [⟨"badpkg", [("usr/lib/libgpm.so.1abc", 0, 0)], []⟩]
        [("libgpm.so=1-64", "usr/lib/libgpm.so.1")]).missing_provides
      = [("libgpm.so=1-64", "badpkg")] := by
  exact ⟨fun s => rfl, by decide, by decide, by decide, by decide, by decide⟩

/-! ### C5: word-size classification -/

/-- C5: the `match bitsize` of lines 46–50 assigns an architecture label
exactly for the word sizes 32 and 64; for any other value the label stays
unassigned, and a needed-library tag that has to consult the cache then
fails for that file (the unhandled case is explicit, not a silent
mis-tagging), while under the precondition `bitsize ∈ {32, 64}` the
assignment is total and the unhandled branch is unreachable. -/
theorem C5_word_size_classes (bitsize : Nat) :
    ((bitsize = 32 ∨ bitsize = 64) ↔ (architectureOf bitsize).isSome = true)
    ∧ (∀ (abspath : String → String) (cache : Architecture → String → Option String)
        (custom : String → Option String) (filename libname : String) (st : ScanState),
        architectureOf bitsize = none → custom libname = none →
        processTag bitsize abspath cache custom filename (DynTag.needed libname) st = none) := by
  constructor
  · unfold architectureOf
    by_cases h32 : bitsize = 32
    · simp [h32]
    · by_cases h64 : bitsize = 64 <;> simp [h32, h64]
  · intro abspath cache custom filename libname st hna hcu
    simp [processTag, hna, hcu]

/-- C5 (witness): both recognized classes produce a label; word size 16
with an unresolved library makes tag processing fail. -/
theorem C5_word_size_classes_witness :
    (architectureOf 32).isSome = true
    ∧ (architectureOf 64).isSome = true
    ∧ processTag 16 id emptyCache emptyCustom "usr/bin/app"
        (DynTag.needed "libz.so.1") emptyScan = none :=
  ⟨(C5_word_size_classes 32).1.mp (Or.inl rfl),
   (C5_word_size_classes 64).1.mp (Or.inr rfl),
   (C5_word_size_classes 16).2 id emptyCache emptyCustom "usr/bin/app" "libz.so.1"
     emptyScan rfl rfl⟩

/-! ### C6: architecture-partitioned cache lookups -/

/-- C6: tag processing for a 32-bit binary consults only the `i686` cache
and for a 64-bit binary only the `x86-64` cache: two caches agreeing on the
relevant class produce identical results for every tag, whatever their
entries for the other class. -/
theorem C6_cache_partition (abspath : String → String) (custom : String → Option String)
    (filename : String) (tag : DynTag) (st : ScanState)
    (c c' : Architecture → String → Option String) :
    (c Architecture.i686 = c' Architecture.i686 →
      processTag 32 abspath c custom filename tag st
        = processTag 32 abspath c' custom filename tag st)
    ∧ (c Architecture.x8664 = c' Architecture.x8664 →
      processTag 64 abspath c custom filename tag st
        = processTag 64 abspath c' custom filename tag st) := by
  constructor <;> intro h <;> cases tag <;> simp [processTag, architectureOf] <;> rw [h]

/-- C6 (witness): the partition applied with two caches whose 64-bit halves
differ. -/
theorem C6_cache_partition_witness :
    processTag 32 id cacheA emptyCustom "usr/bin/app" (DynTag.needed "libz.so.1") emptyScan
      = processTag 32 id cacheB emptyCustom "usr/bin/app" (DynTag.needed "libz.so.1") emptyScan :=
  (C6_cache_partition id emptyCustom "usr/bin/app" (DynTag.needed "libz.so.1")
    emptyScan cacheA cacheB).1 rfl

/-! ### C9: the cache-miss fallback -/

/-- C9: a needed-library tag with no override entry and no cache entry is
still recorded: the key maps to the raw linkage name itself in
`libdepends`, and the requiring file is indexed under that name, so the
unresolved case is deferred instead of failing. -/
theorem C9_fallback_records (bitsize : Nat) (arch : Architecture)
    (abspath : String → String) (cache : Architecture → String → Option String)
    (custom : String → Option String) (filename libname : String) (st : ScanState)
    (hcu : custom libname = none) (ha : architectureOf bitsize = some arch)
    (hca : cache arch libname = none) :
    processTag bitsize abspath cache custom filename (DynTag.needed libname) st
      = some { st with
          libdepends := updAssoc (libKey libname bitsize) libname st.libdepends,
          liblist := addToSetAssoc libname filename st.liblist }
    ∧ lookupAssoc (updAssoc (libKey libname bitsize) libname st.libdepends)
        (libKey libname bitsize) = some libname
    ∧ filename ∈ lookupSet (addToSetAssoc libname filename st.liblist) libname := by
  refine ⟨?_, lookupAssoc_updAssoc_self _ _ _, lookupSet_addToSetAssoc_self _ _ _⟩
  simp [processTag, hcu, ha, hca]

/-- C9 (witness): the fallback applied at a concrete input. -/
theorem C9_fallback_records_witness :
    processTag 64 id emptyCache emptyCustom "usr/bin/app"
        (DynTag.needed "libz.so.1") emptyScan
      = some { emptyScan with
          libdepends := updAssoc (libKey "libz.so.1" 64) "libz.so.1" emptyScan.libdepends,
          liblist := addToSetAssoc "libz.so.1" "usr/bin/app" emptyScan.liblist }
    ∧ lookupAssoc (updAssoc (libKey "libz.so.1" 64) "libz.so.1" emptyScan.libdepends)
        (libKey "libz.so.1" 64) = some "libz.so.1"
    ∧ "usr/bin/app" ∈ lookupSet (addToSetAssoc "libz.so.1" "usr/bin/app" emptyScan.liblist)
        "libz.so.1" :=
  C9_fallback_records 64 Architecture.x8664 id emptyCache emptyCustom "usr/bin/app"
    "libz.so.1" emptyScan rfl rfl rfl

/-! ### C8: versionless declarations -/

theorem dependsLoop_errors_eq (libdependlist : List (String × String))
    (depends : List String) :
    ∀ acc, (depends.foldl (dependsStep libdependlist) acc).2
      = acc.2 ++ (depends.filter (fun i => pyEndsWith i ".so")).map
          (fun i => ("libdepends-without-version", i)) := by
  induction depends with
  | nil => intro acc; simp
  | cons a t ih =>
    intro acc
    rw [List.foldl_cons, ih]
    by_cases h : pyEndsWith a ".so" = true
    · simp [dependsStep, h, List.filter_cons]
    · simp [dependsStep, h, List.filter_cons]

theorem providesLoop_errors_eq (libprovides : List (String × List String))
    (provides : List String) :
    ∀ acc, (provides.foldl (providesStep libprovides) acc).2
      = acc.2 ++ (provides.filter (fun i => pyEndsWith i ".so")).map
          (fun i => ("libprovides-without-version", i)) := by
  induction provides with
  | nil => intro acc; simp
  | cons a t ih =>
    intro acc
    rw [List.foldl_cons, ih]
    by_cases h : pyEndsWith a ".so" = true
    · simp [providesStep, h, List.filter_cons]
    · simp [providesStep, h, List.filter_cons]

theorem length_filter_beq_one {i : String} {l : List String}
    (hn : l.Nodup) (hi : i ∈ l) :
    (l.filter (fun j => j == i)).length = 1 := by
  induction l with
  | nil => cases hi
  | cons a t ih =>
    rcases List.mem_cons.mp hi with rfl | hit
    · have hnt : i ∉ t := (List.nodup_cons.mp hn).1
      have ht : t.filter (fun j => j == i) = [] := by
        rw [List.filter_eq_nil_iff]
        intro b hb hbi
        exact hnt (by simpa using (eq_of_beq hbi) ▸ hb)
      simp [List.filter_cons, ht]
    · have ha : ¬ (a == i) = true := by
        intro hab
        exact (List.nodup_cons.mp hn).1 ((eq_of_beq hab) ▸ hit)
      simp only [List.filter_cons, ha, if_false, Bool.false_eq_true, ite_false]
      exact ih (List.nodup_cons.mp hn).2 hit

/-- C8: each declared `depends` entry and each declared `provides` entry
that ends exactly in `.so` produces exactly one
`libdepends-without-version` / `libprovides-without-version` error
diagnostic, and the error lists do not depend on the resolved
`libdependlist` / `libprovides` maps (so satisfaction of the library is
irrelevant). -/
theorem C8_versionless_errors (depends provides : List String)
    (L : List (String × String)) (P : List (String × List String)) (i : String)
    (hd : depends.Nodup) (hp : provides.Nodup) :
    (i ∈ depends → pyEndsWith i ".so" = true →
      ((dependsLoop depends L).2.filter (fun e => e.2 == i)).length = 1)
    ∧ (i ∈ provides → pyEndsWith i ".so" = true →
      ((providesLoop provides P).2.filter (fun e => e.2 == i)).length = 1)
    ∧ (∀ e ∈ (dependsLoop depends L).2, e.1 = "libdepends-without-version")
    ∧ (∀ e ∈ (providesLoop provides P).2, e.1 = "libprovides-without-version")
    ∧ (∀ L2, (dependsLoop depends L).2 = (dependsLoop depends L2).2)
    ∧ (∀ P2, (providesLoop provides P).2 = (providesLoop provides P2).2) := by
  have hdl : ∀ L2, (dependsLoop depends L2).2
      = (depends.filter (fun j => pyEndsWith j ".so")).map
          (fun j => ("libdepends-without-version", j)) := fun L2 => by
    simpa using dependsLoop_errors_eq L2 depends ([], [])
  have hpl : ∀ P2, (providesLoop provides P2).2
      = (provides.filter (fun j => pyEndsWith j ".so")).map
          (fun j => ("libprovides-without-version", j)) := fun P2 => by
    simpa using providesLoop_errors_eq P2 provides ([], [])
  refine ⟨?_, ?_, ?_, ?_, fun L2 => by rw [hdl L, hdl L2], fun P2 => by rw [hpl P, hpl P2]⟩
  · intro hi hso
    rw [hdl L, List.filter_map]
    have hcomp : ((fun e : String × String => e.2 == i)
        ∘ (fun j => (("libdepends-without-version" : String), j))) = fun j => j == i := rfl
    rw [hcomp, List.length_map]
    exact length_filter_beq_one (hd.filter _) (List.mem_filter.mpr ⟨hi, hso⟩)
  · intro hi hso
    rw [hpl P, List.filter_map]
    have hcomp : ((fun e : String × String => e.2 == i)
        ∘ (fun j => (("libprovides-without-version" : String), j))) = fun j => j == i := rfl
    rw [hcomp, List.length_map]
    exact length_filter_beq_one (hp.filter _) (List.mem_filter.mpr ⟨hi, hso⟩)
  · intro e he
    rw [hdl L] at he
    obtain ⟨j, _, rfl⟩ := List.mem_map.mp he
    rfl
  · intro e he
    rw [hpl P] at he
    obtain ⟨j, _, rfl⟩ := List.mem_map.mp he
    rfl

/-- C8 (witness): a package declaring `depends = ["libfoo.so"]` and
`provides = ["libfoo.so"]` gets exactly one error diagnostic from each
loop for that entry. -/
theorem C8_versionless_errors_witness :
    ((dependsLoop ["libfoo.so"] []).2.filter
      (fun e => e.2 == "libfoo.so")).length = 1
    ∧ ((providesLoop ["libfoo.so"] []).2.filter
      (fun e => e.2 == "libfoo.so")).length = 1 :=
  ⟨(C8_versionless_errors ["libfoo.so"] ["libfoo.so"] [] [] "libfoo.so"
      (by decide) (by decide)).1 (by decide) (by decide),
   (C8_versionless_errors ["libfoo.so"] ["libfoo.so"] [] [] "libfoo.so"
      (by decide) (by decide)).2.1 (by decide) (by decide)⟩

/-! ### C10: removal of internal dependencies before reporting -/

theorem lookupAssoc_some_mem {l : List (String × String)} {k v : String}
    (h : lookupAssoc l k = some v) : (k, v) ∈ l := by
  unfold lookupAssoc at h
  cases hf : l.find? (fun p => p.1 == k) with
  | none => rw [hf] at h; cases h
  | some p =>
    rw [hf] at h
    have hk : p.1 = k := by
      have := List.find?_some hf
      simpa using this
    have hv : p.2 = v := by simpa using h
    have : p = (k, v) := by
      cases p
      simp_all
    exact this ▸ List.mem_of_find?_eq_some hf

theorem nodup_keys_value_unique {l : List (String × String)} {k v w : String}
    (hn : (l.map Prod.fst).Nodup) (hv : (k, v) ∈ l) (hw : (k, w) ∈ l) : v = w := by
  induction l with
  | nil => cases hv
  | cons p t ih =>
    rw [List.map_cons, List.nodup_cons] at hn
    rcases List.mem_cons.mp hv with rfl | hvt
    · rcases List.mem_cons.mp hw with h | hwt
      · injection h with h1 h2
        exact h2.symm
      · exact absurd (List.mem_map.mpr ⟨(k, w), hwt, rfl⟩) hn.1
    · rcases List.mem_cons.mp hw with rfl | hwt
      · exact absurd (List.mem_map.mpr ⟨(k, v), hvt, rfl⟩) hn.1
      · exact ih hn.2 hvt hwt

theorem filterInternal_no_key {L : List (String × String)} {selfname k : String}
    (hL : (L.map Prod.fst).Nodup) (h : lookupAssoc L k = some selfname) :
    ∀ p ∈ filterInternal selfname L, p.1 ≠ k := by
  intro p hp hpk
  have hmem := List.mem_filter.mp hp
  have hps : p.2 ≠ selfname := by simpa using hmem.2
  have : (k, p.2) ∈ L := by
    have : p = (k, p.2) := by
      cases p
      simp_all
    exact this ▸ hmem.1
  exact hps (nodup_keys_value_unique hL this (lookupAssoc_some_mem h))

/-- C10: before the per-library diagnostics are produced, every key owned
by the analyzed package itself is removed from the owner map and from the
missing-provides map, so such a key receives neither a
detected/satisfied/optional/not-included diagnostic nor a
missing-provides diagnostic. -/
theorem C10_internal_owner_filtered (L M : List (String × String))
    (selfname k : String) (depends optdepends : List String)
    (hL : (L.map Prod.fst).Nodup) (hM : (M.map Prod.fst).Nodup) :
    (lookupAssoc L k = some selfname →
      lookupAssoc (filterInternal selfname L) k = none
      ∧ ∀ d ∈ sonameDepInfos (filterInternal selfname L) depends optdepends, d.2.1 ≠ k)
    ∧ (lookupAssoc M k = some selfname →
      lookupAssoc (filterInternal selfname M) k = none
      ∧ ∀ d ∈ missingProvidesInfos (filterInternal selfname M), d.2.1 ≠ k) := by
  constructor
  · intro h
    have hno := filterInternal_no_key hL h
    constructor
    · unfold lookupAssoc
      rw [List.find?_eq_none.mpr (fun p hp => by simpa using hno p hp)]
      rfl
    · intro d hd
      obtain ⟨p, hp, rfl⟩ := List.mem_map.mp hd
      by_cases h1 : p.1 ∈ depends
      · simpa [h1] using hno p hp
      · by_cases h2 : p.1 ∈ optdepends
        · simpa [h1, h2] using hno p hp
        · simpa [h1, h2] using hno p hp
  · intro h
    have hno := filterInternal_no_key hM h
    constructor
    · unfold lookupAssoc
      rw [List.find?_eq_none.mpr (fun p hp => by simpa using hno p hp)]
      rfl
    · intro d hd
      obtain ⟨p, hp, rfl⟩ := List.mem_map.mp hd
      exact hno p hp

/-- C10 (witness): a key owned by the analyzed package `me` disappears
from both maps and from the diagnostics. -/
theorem C10_internal_owner_filtered_witness :
    (lookupAssoc (filterInternal "me" [("libfoo.so=1-64", "me")]) "libfoo.so=1-64" = none
      ∧ ∀ d ∈ sonameDepInfos (filterInternal "me" [("libfoo.so=1-64", "me")]) [] [],
          d.2.1 ≠ "libfoo.so=1-64")
    ∧ (lookupAssoc (filterInternal "me" [("libfoo.so=1-64", "me")]) "libfoo.so=1-64" = none
      ∧ ∀ d ∈ missingProvidesInfos (filterInternal "me" [("libfoo.so=1-64", "me")]),
          d.2.1 ≠ "libfoo.so=1-64") :=
  ⟨(C10_internal_owner_filtered [("libfoo.so=1-64", "me")] [("libfoo.so=1-64", "me")]
      "me" "libfoo.so=1-64" [] [] (by decide) (by decide)).1 (by decide),
   (C10_internal_owner_filtered [("libfoo.so=1-64", "me")] [("libfoo.so=1-64", "me")]
      "me" "libfoo.so=1-64" [] [] (by decide) (by decide)).2 (by decide)⟩

/-! ### C7: orphan classification and its warnings -/

theorem foundlibs_fdStepKey (realpath : String → String)
    (ld : List (String × String)) (pkg : Pkg) (j : String) (st : FDState) (k kp : String) :
    k ∈ (fdStepKey realpath ld pkg j st kp).foundlibs
      ↔ k ∈ st.foundlibs
        ∨ (k = kp ∧ soMatchCond (actualpathOf realpath ld kp) j = true) := by
  unfold fdStepKey
  split
  case isTrue h =>
    rw [mem_addElem]
    constructor
    · rintro (rfl | hk)
      · exact Or.inr ⟨rfl, h⟩
      · exact Or.inl hk
    · rintro (hk | ⟨rfl, _⟩)
      · exact Or.inr hk
      · exact Or.inl rfl
  case isFalse h =>
    simp [h]

theorem foundlibs_foldKeys (realpath : String → String)
    (ld : List (String × String)) (pkg : Pkg) (j : String) (ks : List String) :
    ∀ (st : FDState) (k : String),
    k ∈ (ks.foldl (fdStepKey realpath ld pkg j) st).foundlibs
      ↔ k ∈ st.foundlibs
        ∨ (k ∈ ks ∧ soMatchCond (actualpathOf realpath ld k) j = true) := by
  induction ks with
  | nil => simp
  | cons a t ih =>
    intro st k
    rw [List.foldl_cons, ih, foundlibs_fdStepKey]
    constructor
    · rintro ((h | ⟨rfl, hm⟩) | ⟨ht, hm⟩)
      · exact Or.inl h
      · exact Or.inr ⟨List.mem_cons_self _ _, hm⟩
      · exact Or.inr ⟨List.mem_cons_of_mem _ ht, hm⟩
    · rintro (h | ⟨hk, hm⟩)
      · exact Or.inl (Or.inl h)
      · rcases List.mem_cons.mp hk with rfl | ht
        · exact Or.inl (Or.inr ⟨rfl, hm⟩)
        · exact Or.inr ⟨ht, hm⟩

theorem foundlibs_fdStepFile (realpath : String → String)
    (ld : List (String × String)) (ks : List String) (pkg : Pkg)
    (st : FDState) (f : String × Nat × Nat) (k : String) :
    k ∈ (fdStepFile realpath ld ks pkg st f).foundlibs
      ↔ k ∈ st.foundlibs
        ∨ (isSoSearch f.1 = true ∧ k ∈ ks
            ∧ soMatchCond (actualpathOf realpath ld k) f.1 = true) := by
  unfold fdStepFile
  split
  case isTrue h => rw [foundlibs_foldKeys]; simp [h]
  case isFalse h => simp [h]

theorem foundlibs_foldFiles (realpath : String → String)
    (ld : List (String × String)) (ks : List String) (pkg : Pkg)
    (files : List (String × Nat × Nat)) :
    ∀ (st : FDState) (k : String),
    k ∈ (files.foldl (fdStepFile realpath ld ks pkg) st).foundlibs
      ↔ k ∈ st.foundlibs
        ∨ ∃ f ∈ files, isSoSearch f.1 = true ∧ k ∈ ks
            ∧ soMatchCond (actualpathOf realpath ld k) f.1 = true := by
  induction files with
  | nil => simp
  | cons a t ih =>
    intro st k
    rw [List.foldl_cons, ih, foundlibs_fdStepFile, List.exists_mem_cons_iff]
    tauto

theorem foundlibs_foldPkgs (realpath : String → String)
    (ld : List (String × String)) (ks : List String) (pkgs : List Pkg) :
    ∀ (st : FDState) (k : String),
    k ∈ (pkgs.foldl (fdStepPkg realpath ld ks) st).foundlibs
      ↔ k ∈ st.foundlibs
        ∨ ∃ pkg ∈ pkgs, ∃ f ∈ pkg.files, isSoSearch f.1 = true ∧ k ∈ ks
            ∧ soMatchCond (actualpathOf realpath ld k) f.1 = true := by
  induction pkgs with
  | nil => simp
  | cons a t ih =>
    intro st k
    rw [List.foldl_cons, ih, List.exists_mem_cons_iff]
    unfold fdStepPkg
    rw [foundlibs_foldFiles]
    constructor
    · rintro ((h | hfa) | ⟨pkg, hpkg, hrest⟩)
      · exact Or.inl h
      · exact Or.inr (Or.inl hfa)
      · exact Or.inr (Or.inr ⟨pkg, hpkg, hrest⟩)
    · rintro (h | hfa | ⟨pkg, hpkg, hrest⟩)
      · exact Or.inl (Or.inl h)
      · exact Or.inl (Or.inr hfa)
      · exact Or.inr ⟨pkg, hpkg, hrest⟩

/-- C7: a required key is an orphan of `finddepends` exactly when it is a
scanned key and no installed-package file matched it (no file both passes
the `.so` filter and satisfies the match condition against the key's
canonicalized path); the orphan list has no duplicates and the
`library-no-package-associated` warnings are exactly one per orphan,
carrying the key's recorded path and the files that required that path. -/
theorem C7_orphans_no_package (realpath : String → String) (pkgs : List Pkg)
    (libdepends : List (String × String)) (liblist : List (String × List String)) :
    (∀ k, k ∈ (finddepends realpath pkgs libdepends).orphans
      ↔ (k ∈ libdepends.map Prod.fst
          ∧ ¬ ∃ pkg ∈ pkgs, ∃ f ∈ pkg.files, isSoSearch f.1 = true
              ∧ soMatchCond (actualpathOf realpath libdepends k) f.1 = true))
    ∧ noPkgWarnings (finddepends realpath pkgs libdepends).orphans libdepends liblist
      = ((finddepends realpath pkgs libdepends).orphans).map
          (fun i => ("library-no-package-associated",
            (lookupAssoc libdepends i).getD "",
            lookupSet liblist ((lookupAssoc libdepends i).getD "")))
    ∧ ((finddepends realpath pkgs libdepends).orphans).Nodup := by
  refine ⟨?_, rfl, ?_⟩
  · intro k
    unfold finddepends
    simp only [List.mem_filter, List.mem_dedup, decide_eq_true_eq]
    constructor
    · rintro ⟨hk, hnc⟩
      refine ⟨hk, ?_⟩
      rintro ⟨pkg, hpkg, f, hf, hso, hm⟩
      apply hnc
      apply List.elem_iff.mpr
      rw [foundlibs_foldPkgs]
      exact Or.inr ⟨pkg, hpkg, f, hf, hso, List.mem_dedup.mpr hk, hm⟩
    · rintro ⟨hk, hne⟩
      refine ⟨hk, ?_⟩
      intro hc
      have hmem := List.elem_iff.mp hc
      rw [foundlibs_foldPkgs] at hmem
      rcases hmem with h | ⟨pkg, hpkg, f, hf, hso, _, hm⟩
      · simp at h
      · exact hne ⟨pkg, hpkg, f, hf, hso, hm⟩
  · unfold finddepends
    exact (List.nodup_dedup _).filter _

/-! ### C4: ownership on multi-provider collisions -/

theorem libdependlist_fdStepKey_preserve (realpath : String → String)
    (ld : List (String × String)) (pkg : Pkg) (j : String) (st : FDState)
    (k kp : String) (h : lookupAssoc st.libdependlist k = some pkg.name) :
    lookupAssoc (fdStepKey realpath ld pkg j st kp).libdependlist k = some pkg.name := by
  unfold fdStepKey
  split
  case isTrue _ =>
    by_cases hpv : pkg.provides.contains kp = true
    · rw [if_pos hpv]
      by_cases hk : k = kp
      · subst hk
        exact lookupAssoc_updAssoc_self k pkg.name st.libdependlist
      · rw [lookupAssoc_updAssoc_other hk pkg.name st.libdependlist]
        exact h
    · rw [if_neg hpv]
      exact h
  case isFalse _ => exact h

theorem libdependlist_foldKeys_preserve (realpath : String → String)
    (ld : List (String × String)) (pkg : Pkg) (j : String) (ks : List String) :
    ∀ (st : FDState) (k : String),
    lookupAssoc st.libdependlist k = some pkg.name →
    lookupAssoc ((ks.foldl (fdStepKey realpath ld pkg j) st)).libdependlist k
      = some pkg.name := by
  induction ks with
  | nil => intro st k h; exact h
  | cons a t ih =>
    intro st k h
    rw [List.foldl_cons]
    exact ih _ k (libdependlist_fdStepKey_preserve realpath ld pkg j st k a h)

theorem libdependlist_foldKeys_establish (realpath : String → String)
    (ld : List (String × String)) (pkg : Pkg) (j : String) (ks : List String) :
    ∀ (st : FDState) (k : String), k ∈ ks →
    soMatchCond (actualpathOf realpath ld k) j = true →
    pkg.provides.contains k = true →
    lookupAssoc ((ks.foldl (fdStepKey realpath ld pkg j) st)).libdependlist k
      = some pkg.name := by
  induction ks with
  | nil => intro st k hk; cases hk
  | cons a t ih =>
    intro st k hk hm hpv
    rw [List.foldl_cons]
    rcases List.mem_cons.mp hk with rfl | ht
    · apply libdependlist_foldKeys_preserve
      unfold fdStepKey
      rw [if_pos hm, if_pos hpv]
      exact lookupAssoc_updAssoc_self k pkg.name st.libdependlist
    · exact ih _ k ht hm hpv

theorem libdependlist_fdStepFile_preserve (realpath : String → String)
    (ld : List (String × String)) (ks : List String) (pkg : Pkg)
    (st : FDState) (f : String × Nat × Nat) (k : String)
    (h : lookupAssoc st.libdependlist k = some pkg.name) :
    lookupAssoc (fdStepFile realpath ld ks pkg st f).libdependlist k = some pkg.name := by
  unfold fdStepFile
  split
  case isTrue _ => exact libdependlist_foldKeys_preserve realpath ld pkg f.1 ks st k h
  case isFalse _ => exact h

theorem libdependlist_foldFiles_preserve (realpath : String → String)
    (ld : List (String × String)) (ks : List String) (pkg : Pkg)
    (files : List (String × Nat × Nat)) :
    ∀ (st : FDState) (k : String),
    lookupAssoc st.libdependlist k = some pkg.name →
    lookupAssoc ((files.foldl (fdStepFile realpath ld ks pkg) st)).libdependlist k
      = some pkg.name := by
  induction files with
  | nil => intro st k h; exact h
  | cons a t ih =>
    intro st k h
    rw [List.foldl_cons]
    exact ih _ k (libdependlist_fdStepFile_preserve realpath ld ks pkg st a k h)

theorem libdependlist_foldFiles_establish (realpath : String → String)
    (ld : List (String × String)) (ks : List String) (pkg : Pkg)
    (files : List (String × Nat × Nat)) :
    ∀ (st : FDState) (k : String), k ∈ ks →
    (∃ f ∈ files, isSoSearch f.1 = true
      ∧ soMatchCond (actualpathOf realpath ld k) f.1 = true) →
    pkg.provides.contains k = true →
    lookupAssoc ((files.foldl (fdStepFile realpath ld ks pkg) st)).libdependlist k
      = some pkg.name := by
  induction files with
  | nil =>
    rintro st k _ ⟨f, hf, _⟩
    cases hf
  | cons a t ih =>
    rintro st k hk ⟨f, hf, hso, hm⟩ hpv
    rw [List.foldl_cons]
    rcases List.mem_cons.mp hf with rfl | hft
    · apply libdependlist_foldFiles_preserve
      unfold fdStepFile
      rw [if_pos hso]
      exact libdependlist_foldKeys_establish realpath ld pkg f.1 ks st k hk hm hpv
    · exact ih _ k hk ⟨f, hft, hso, hm⟩ hpv

/-- C4 (counterexample): `libgpm.so=1-64` is matched by files of both
`pkgA` and `pkgB` (both declaring it in `provides`), yet the recorded
owner is `pkgB`, the *later* package — the claim that the first match is
kept and later matches cannot change the owner fails. -/
theorem C4_counterexample :
    soMatchCond (actualpathOf id [("libgpm.so=1-64", "usr/lib/libgpm.so.1")] "libgpm.so=1-64")
        "usr/lib/libgpm.so.1.19.0" = true
    ∧ (finddepends id
        [⟨"pkgA", [("usr/lib/libgpm.so.1.19.0", 0, 0)], ["libgpm.so=1-64"]⟩,
         ⟨"pkgB", [("usr/lib/libgpm.so.1.19.0", 0, 0)], ["libgpm.so=1-64"]⟩]
        [("libgpm.so=1-64", "usr/lib/libgpm.so.1")]).libdependlist
      = [("libgpm.so=1-64", "pkgB")]
    ∧ ("pkgB" : String) ≠ "pkgA" := by
  exact ⟨by decide, by decide, by decide⟩

/-- C4 (amended): when the same key is matched by files of several
installed packages, every later match overwrites the recorded owner, so
the *last* matching package in iteration order is recorded: whatever
packages precede it, if the final package `q` declares the key and one of
its `.so` files matches, the owner map ends up naming `q`. -/
theorem C4_last_match_wins (realpath : String → String) (pkgs : List Pkg) (q : Pkg)
    (libdepends : List (String × String)) (k : String)
    (hk : k ∈ libdepends.map Prod.fst)
    (hf : ∃ f ∈ q.files, isSoSearch f.1 = true
      ∧ soMatchCond (actualpathOf realpath libdepends k) f.1 = true)
    (hpv : q.provides.contains k = true) :
    lookupAssoc (finddepends realpath (pkgs ++ [q]) libdepends).libdependlist k
      = some q.name := by
  unfold finddepends
  simp only [List.foldl_append, List.foldl_cons, List.foldl_nil]
  unfold fdStepPkg
  exact libdependlist_foldFiles_establish realpath libdepends _ q q.files _ k
    (List.mem_dedup.mpr hk) hf hpv

/-- C4 (witness): the amended claim applied to the concrete two-package
collision of the counterexample. -/
theorem C4_last_match_wins_witness :
    lookupAssoc (finddepends id
        [⟨"pkgA", [("usr/lib/libgpm.so.1.19.0", 0, 0)], ["libgpm.so=1-64"]⟩,
         ⟨"pkgB", [("usr/lib/libgpm.so.1.19.0", 0, 0)], ["libgpm.so=1-64"]⟩]
        [("libgpm.so=1-64", "usr/lib/libgpm.so.1")]).libdependlist "libgpm.so=1-64"
      = some "pkgB" := by
  have h := C4_last_match_wins id
    [⟨"pkgA", [("usr/lib/libgpm.so.1.19.0", 0, 0)], ["libgpm.so=1-64"]⟩]
    ⟨"pkgB", [("usr/lib/libgpm.so.1.19.0", 0, 0)], ["libgpm.so=1-64"]⟩
    [("libgpm.so=1-64", "usr/lib/libgpm.so.1")] "libgpm.so=1-64"
    (by decide) ⟨("usr/lib/libgpm.so.1.19.0", 0, 0), by decide, by decide, by decide⟩
    (by decide)
  exact h

/-! ### C3: the soname / soversion derivation -/

/-- The position of the first occurrence of `.so` in `l`, if any. -/
def firstSoPos (l : List Char) : Option Nat :=
  (List.range (l.length + 1)).filter
    (fun i => ('.' :: 's' :: 'o' :: []).isPrefixOf (l.drop i)) |>.head?

/-- The position of the last occurrence of `.so.` in `l`, if any. -/
def lastSoDotPos (l : List Char) : Option Nat :=
  (List.range (l.length + 1)).filter
    (fun j => ('.' :: 's' :: 'o' :: '.' :: []).isPrefixOf (l.drop j)) |>.getLast?

/-- Stripping everything after the first `.so` occurrence — the
specification's wording of the soname derivation. -/
def stripAfterFirstSo (s : String) : String :=
  match firstSoPos s.data with
  | some i => ⟨s.data.take i ++ ('.' :: 's' :: 'o' :: [])⟩
  | none => s

/-- Stripping everything up to and including the last `.so.` occurrence —
the specification's wording of the version derivation. -/
def stripThroughLastSoDot (s : String) : String :=
  match lastSoDotPos s.data with
  | some j => ⟨s.data.drop (j + 4)⟩
  | none => s

theorem firstSoPos_zero_of_match {l : List Char}
    (hp : ('.' :: 's' :: 'o' :: []).isPrefixOf l = true) :
    firstSoPos l = some 0 := by
  unfold firstSoPos
  rw [List.range_succ_eq_map, List.filter_cons]
  simp only [List.drop_zero, hp, if_true]
  rfl

theorem firstSoPos_cons_of_no_match {c : Char} {cs : List Char}
    (hp : ('.' :: 's' :: 'o' :: []).isPrefixOf (c :: cs) = false) :
    firstSoPos (c :: cs) = (firstSoPos cs).map Nat.succ := by
  unfold firstSoPos
  rw [show (c :: cs).length + 1 = cs.length + 1 + 1 by simp]
  rw [List.range_succ_eq_map, List.filter_cons]
  simp only [List.drop_zero, hp, Bool.false_eq_true, if_false]
  rw [List.filter_map]
  rw [List.filter_congr (fun j _ => by
    show ('.' :: 's' :: 'o' :: []).isPrefixOf ((c :: cs).drop (Nat.succ j))
      = ('.' :: 's' :: 'o' :: []).isPrefixOf (cs.drop j)
    rw [List.drop_succ_cons])]
  rw [List.head?_map]

theorem subSoAux_of_no_newline (l : List Char) (h : ∀ c ∈ l, c ≠ '\n') :
    subSoAux l = match firstSoPos l with
      | some i => l.take i ++ ('.' :: 's' :: 'o' :: [])
      | none => l := by
  induction l with
  | nil => rw [subSoAux]; decide
  | cons c cs ih =>
    by_cases hp : ('.' :: 's' :: 'o' :: []).isPrefixOf (c :: cs) = true
    · rw [firstSoPos_zero_of_match hp]
      have hdrop : ((cs.drop 2).dropWhile (fun d => d ≠ '\n')) = [] := by
        rw [List.dropWhile_eq_nil_iff]
        intro x hx
        simpa using h x (List.mem_cons_of_mem c (List.drop_subset 2 cs hx))
      rw [subSoAux, if_pos hp, hdrop, subSoAux]
      simp
    · have hp' : ('.' :: 's' :: 'o' :: []).isPrefixOf (c :: cs) = false :=
        Bool.not_eq_true _ ▸ eq_false_of_ne_true hp
      rw [firstSoPos_cons_of_no_match hp']
      have hcs : ∀ x ∈ cs, x ≠ '\n' := fun x hx => h x (List.mem_cons_of_mem c hx)
      rw [subSoAux, if_neg hp, ih hcs]
      cases hfp : firstSoPos cs with
      | none => simp
      | some i => simp [List.take_succ_cons]

theorem sonameOf_eq_strip (s : String) (h : ∀ c ∈ s.data, c ≠ '\n') :
    sonameOf s = stripAfterFirstSo s := by
  unfold sonameOf stripAfterFirstSo
  rw [subSoAux_of_no_newline s.data h]
  cases hfp : firstSoPos s.data with
  | none => simp
  | some i => simp

theorem soDotMatchEnds_of_no_newline (l : List Char) (h : ∀ c ∈ l, c ≠ '\n') :
    soDotMatchEnds l
      = ((List.range (l.length + 1)).filter
          (fun j => ('.' :: 's' :: 'o' :: '.' :: []).isPrefixOf (l.drop j))).map
            (fun j => j + 4) := by
  unfold soDotMatchEnds
  congr 1
  apply List.filter_congr
  intro j _
  have hall : (l.take j).all (fun d => d ≠ '\n') = true := by
    rw [List.all_eq_true]
    intro d hd
    simpa using h d (List.take_subset j l hd)
  rw [hall, Bool.and_true]

theorem soversionOf_eq_strip (s : String) (h : ∀ c ∈ s.data, c ≠ '\n') :
    soversionOf s = stripThroughLastSoDot s := by
  unfold soversionOf stripThroughLastSoDot lastSoDotPos
  rw [soDotMatchEnds_of_no_newline s.data h, List.getLast?_map]
  cases hl : ((List.range (s.data.length + 1)).filter
      (fun j => ('.' :: 's' :: 'o' :: '.' :: []).isPrefixOf (s.data.drop j))).getLast? with
  | none => rfl
  | some j => rfl

/-- C3 (counterexample): for the raw name `libfoo.so` the substitution
pattern `^.*\.so\.` finds no match, so the derived version is the whole
name `libfoo.so`, not the empty string claimed. -/
theorem C3_counterexample :
    soversionOf "libfoo.so" = "libfoo.so" ∧ soversionOf "libfoo.so" ≠ "" := by
  exact ⟨by decide, by decide⟩

/-- C3 (amended): for every raw linkage name (without newline characters,
which the regular expressions treat specially), the derived soname is the
name with everything after the first `.so` occurrence stripped and the
derived version is the name with everything up to and including the last
`.so.` occurrence stripped — in particular a name with no `.so.`
occurrence, such as `libfoo.so`, keeps the whole name as its version
rather than the empty string; `libfoo.so.1.2.3` still yields soname
`libfoo.so` and version `1.2.3`. -/
theorem C3_key_derivation (s : String) (h : ∀ c ∈ s.data, c ≠ '\n') :
    sonameOf s = stripAfterFirstSo s
    ∧ soversionOf s = stripThroughLastSoDot s
    ∧ sonameOf "libfoo.so.1.2.3" = "libfoo.so"
    ∧ soversionOf "libfoo.so.1.2.3" = "1.2.3"
    ∧ libKey "libfoo.so.1.2.3" 64 = "libfoo.so=1.2.3-64"
    ∧ sonameOf "libfoo.so" = "libfoo.so"
    ∧ soversionOf "libfoo.so" = "libfoo.so"
    ∧ libKey "libfoo.so" 64 = "libfoo.so=libfoo.so-64" := by
  have hn1 : sonameOf "libfoo.so.1.2.3" = "libfoo.so" :=
    (sonameOf_eq_strip "libfoo.so.1.2.3" (by decide)).trans (by decide)
  have hv1 : soversionOf "libfoo.so.1.2.3" = "1.2.3" := by decide
  have hn2 : sonameOf "libfoo.so" = "libfoo.so" :=
    (sonameOf_eq_strip "libfoo.so" (by decide)).trans (by decide)
  have hv2 : soversionOf "libfoo.so" = "libfoo.so" := by decide
  refine ⟨sonameOf_eq_strip s h, soversionOf_eq_strip s h, hn1, hv1, ?_, hn2, hv2, ?_⟩
  · rw [libKey, hn1, hv1]
    decide
  · rw [libKey, hn2, hv2]
    decide

/-- C3 (witness): the amended claim applied at `libfoo.so.1.2.3`. -/
theorem C3_key_derivation_witness :
    sonameOf "libfoo.so.1.2.3" = stripAfterFirstSo "libfoo.so.1.2.3"
    ∧ soversionOf "libfoo.so.1.2.3" = stripThroughLastSoDot "libfoo.so.1.2.3" :=
  ⟨(C3_key_derivation "libfoo.so.1.2.3" (by decide)).1,
   (C3_key_derivation "libfoo.so.1.2.3" (by decide)).2.1⟩

end Sodepends
